import Mathlib

/-!
Verification of the FinancialDataProcessing module (data.py, utils.py).

The embedding models a pandas DataFrame as an index (the row labels, one
string per row) together with an ordered list of named columns, each column
a list of cells; a cell is `Option α`, with `none` standing for a missing
value (NaN).  Stateful pandas operations are made explicit:
`df.drop(columns=..., inplace=True)` mutates the caller's object, while
`df.ffill()` / `df.bfill()` return fresh frames.  `drop_all_except`
therefore returns a pair: the state of the caller's object after the call
(columns dropped, values untouched) and the value the function returns
(columns dropped and then filled).  External collaborators (the yfinance
history call, the MetaTrader terminal calls, the file reader) are opaque
data sources in the spec's sense, so adapters take their raw tabular
results as arguments.
-/

namespace FinData

/-- A column of cells; `none` is the missing-value (NaN) sentinel. -/
abbrev Col (α : Type) := List (Option α)

/-- Forward-fill with an accumulator holding the last observed value:
each `none` cell is replaced by the most recent earlier non-missing value
(cells before the first non-missing value stay `none` when the accumulator
starts as `none`).  This is pandas `Series.ffill`. -/
def ffillAux {α : Type} : Option α → Col α → Col α
  | _, [] => []
  | acc, x :: rest =>
    match x with
    | some v => some v :: ffillAux (some v) rest
    | none => acc :: ffillAux acc rest

/-- pandas `df.ffill()` on one column. -/
def ffillCol {α : Type} (c : Col α) : Col α := ffillAux none c

/-- pandas `df.bfill()` on one column: forward-fill of the reversed column,
reversed back, so each `none` is replaced by the next later non-missing
value. -/
def bfillCol {α : Type} (c : Col α) : Col α := (ffillAux none c.reverse).reverse

/-- The fill the source applies in `drop_all_except`: `df.ffill().bfill()`,
forward fill first, then backward fill of what is still missing. -/
def fillCol {α : Type} (c : Col α) : Col α := bfillCol (ffillCol c)

/-- Model of a pandas DataFrame: row-label index plus ordered named columns. -/
structure DataFrame (α : Type) where
  index : List String
  cols : List (String × Col α)
deriving DecidableEq, Repr

/-- Column names of a frame, in order. -/
def DataFrame.names {α : Type} (df : DataFrame α) : List String :=
  df.cols.map Prod.fst

/-- Cells of the column called `name` (`[]` when absent). -/
def DataFrame.col {α : Type} (df : DataFrame α) (name : String) : Col α :=
  match df.cols.find? (fun c => c.1 == name) with
  | some c => c.2
  | none => []

/-- Apply `df.ffill().bfill()` to every column of a frame; preserves the
index and the column names. -/
def fillDF {α : Type} (df : DataFrame α) : DataFrame α :=
  ⟨df.index, df.cols.map (fun c => (c.1, fillCol c.2))⟩

/-- data.py `drop_all_except(df, keep_column)`.
The first component is the caller's object after the call: `df.drop(columns
=[c for c in df.columns if c != keep_column], inplace=True)` removes every
other column in place and leaves the cells untouched.  The second component
is the value the function returns: the local name `df` is rebound to
`df.ffill().bfill()`, a fresh filled frame, so only the returned frame is
filled. -/
def drop_all_except {α : Type} (df : DataFrame α) (keep : String) :
    DataFrame α × DataFrame α :=
  let dropped : DataFrame α := ⟨df.index, df.cols.filter (fun c => c.1 == keep)⟩
  (dropped, fillDF dropped)

/-- pandas `df.rename(columns={src: dst})`: a fresh frame with the column
name replaced, values and index untouched. -/
def renameCol {α : Type} (df : DataFrame α) (src dst : String) : DataFrame α :=
  ⟨df.index, df.cols.map (fun c => if c.1 == src then (dst, c.2) else c)⟩

/-- data.py `get_yfinance_data`.  `rates` is the raw frame the opaque
`ticker.history(...)` call produced.  When `drop_other_column` is set the
source calls `drop_all_except(rates, 'Close')` and DISCARDS its return
value, so only the in-place column drop reaches `rates`; the filled frame
is lost.  The function then returns `rates.rename(columns={'Close':
'Price'})`. -/
def get_yfinance_data (rates : DataFrame ℚ) (drop_other_column : Bool) :
    DataFrame ℚ :=
  let rates1 := if drop_other_column then (drop_all_except rates "Close").1 else rates
  renameCol rates1 "Close" "Price"

/-- Failure modes of the file adapter, all raised as exceptions by the
source (pandas errors / ValueError on the column assignment). -/
inductive FormatError where
  | emptyData
  | raggedRows
  | columnCount
deriving DecidableEq, Repr

/-- Fixed positional schema for daily bars (8 columns). -/
def schemaDaily : List String :=
  ["Date", "Open", "High", "Low", "Price", "TickVol", "Vol", "Spread"]

/-- Fixed positional schema for intraday bars (9 columns). -/
def schemaIntraday : List String :=
  ["Date", "Time", "Open", "High", "Low", "Price", "TickVol", "Vol", "Spread"]

/-- How the delimited-text reader turns a raw field into a cell: an empty
field becomes the missing value, anything else is kept as text. -/
def parseCell (s : String) : Option String :=
  if s = "" then none else some s

/-- data.py `get_csv_data`.  `fileRows` are the split lines of the file
(the reader consumes the first line as the header, so its cells are lost).
Modelled pandas behavior for a rectangular file: the frame's width is the
file's column count; a ragged file is a reader error.  `df.columns =
[...]` raises when the width differs from the schema width (8 daily, 9
intraday); otherwise columns are assigned positionally, a timestamp is
built from the Date (plus Time intraday) text, `set_index` makes it the
index, and, when `drop_other_column` is set, the frame is rebound to the
RETURN value of `drop_all_except(df, 'Price')`, so here the fill is kept. -/
def get_csv_data (fileRows : List (List String)) (dailyBars : Bool)
    (drop_other_column : Bool) : Except FormatError (DataFrame String) :=
  match fileRows with
  | [] => .error .emptyData
  | header :: body =>
    if body.any (fun r => r.length ≠ header.length) then .error .raggedRows
    else
      let names := if dailyBars then schemaDaily else schemaIntraday
      if header.length ≠ names.length then .error .columnCount
      else
        let cols := (List.range names.length).map
          (fun j => (names.getD j "", body.map (fun r => parseCell (r.getD j ""))))
        let idx :=
          if dailyBars then body.map (fun r => r.getD 0 "")
          else body.map (fun r => r.getD 0 "" ++ " " ++ r.getD 1 "")
        let df : DataFrame String := ⟨idx, cols⟩
        if drop_other_column then .ok (drop_all_except df "Price").2 else .ok df

/-- The fixed enumeration of MetaTrader timeframe codes the adapter's
lookup table maps to platform bar codes. -/
def mt5Timeframes : List String :=
  ["M1", "M2", "M3", "M4", "M5", "M6", "M10", "M12", "M15", "M20", "M30",
   "H1", "H2", "H3", "H4", "H6", "H8", "H12", "D1", "W1", "MN1"]

/-- The `df['Datetime'] = pd.to_datetime(df['time'], unit='s');
df.set_index('Datetime', inplace=True)` step: the index becomes a
rendering of the epoch-seconds `time` column (injective on well-formed
seconds), the `Datetime` helper column is consumed by `set_index`, and the
`time` column itself stays among the columns. -/
def setDatetimeIndex (df : DataFrame ℚ) : DataFrame ℚ :=
  ⟨(df.col "time").map (fun o =>
      match o with
      | some q => toString q.num
      | none => "NaT"),
   df.cols⟩

/-- data.py `get_mt5_data`.  The opaque terminal calls are passed in as
what they would have produced: `ratesRange` for `mt5.copy_rates_range`
(used when both dates are supplied) and `ratesPos` for
`mt5.copy_rates_from_pos` (used when both positions are supplied; it
overwrites the range result when both pairs are present).  Either call may
itself fail, which the source sees as `rates is None`.  Guards: not
authorized returns `None`; a timeframe outside the lookup table returns
`None`; `rates` still `None` (no complete pair supplied, or the call
failed) returns `None`.  On success the frame is indexed by the converted
`time` column; when `drop_other_column` is set the source calls
`drop_all_except(df, 'close')` and DISCARDS its return value, so only the
in-place column drop reaches `df`; finally `close` is renamed to `Price`. -/
def get_mt5_data (authorized : Bool) (symbol : String) (timeframe : String)
    (start_date end_date : Option String) (start_pos end_pos : Option Int)
    (ratesRange ratesPos : Option (DataFrame ℚ))
    (drop_other_column : Bool) : Option (DataFrame ℚ) :=
  if !authorized then none
  else if !(mt5Timeframes.contains timeframe) then none
  else
    let rates1 : Option (DataFrame ℚ) :=
      if start_date.isSome && end_date.isSome then ratesRange else none
    let rates2 : Option (DataFrame ℚ) :=
      if start_pos.isSome && end_pos.isSome then ratesPos else rates1
    match rates2 with
    | none => none
    | some r =>
      let df := setDatetimeIndex r
      let df1 := if drop_other_column then (drop_all_except df "close").1 else df
      some (renameCol df1 "close" "Price")

/-- Round a rational to the nearest integer, ties to even — the rounding
`format(x, ".2f")` applies. -/
def roundHalfEven (q : ℚ) : ℤ :=
  let f : ℤ := ⌊q⌋
  let frac : ℚ := q - f
  if frac < 1 / 2 then f
  else if 1 / 2 < frac then f + 1
  else if f % 2 = 0 then f else f + 1

/-- Left-pad a digit string with zeros to length `d`. -/
def padZeros (d : Nat) (s : String) : String :=
  String.mk (List.replicate (d - s.length) '0') ++ s

/-- Python `format(q, "." ++ toString d ++ "f")`: sign, then the magnitude
rounded half-to-even at `d` fractional digits. -/
def formatFixed (q : ℚ) (d : Nat) : String :=
  let sign := if q < 0 then "-" else ""
  let m : Nat := (roundHalfEven (|q| * 10 ^ d)).toNat
  let base : Nat := 10 ^ d
  sign ++ toString (m / base) ++
    (if d = 0 then "" else "." ++ padZeros d (toString (m % base)))

/-- utils.py `to_percent`: NaN (modelled as `none`) renders as "-";
otherwise `format(number, ".2%")`, i.e. the number times 100 at two
fractional digits with a "%" suffix. -/
def to_percent (number : Option ℚ) : String :=
  match number with
  | none => "-"
  | some q => formatFixed (q * 100) 2 ++ "%"

/-- utils.py `to_percent_num`: NaN renders as "-"; otherwise
`format(number * 100, ".2f")`. -/
def to_percent_num (number : Option ℚ) : String :=
  match number with
  | none => "-"
  | some q => formatFixed (q * 100) 2

/-- utils.py `to_float`: NaN renders as "-"; otherwise fixed-decimal at
`decimals` digits. -/
def to_float (number : Option ℚ) (decimals : Nat := 2) : String :=
  match number with
  | none => "-"
  | some q => formatFixed q decimals

/-- utils.py `scale(val, src, dst)`: clamp below/above the source range to
the destination bounds, otherwise linear interpolation. -/
def scale (val : ℚ) (src dst : ℚ × ℚ) : ℚ :=
  if val < src.1 then dst.1
  else if src.2 < val then dst.2
  else ((val - src.1) / (src.2 - src.1)) * (dst.2 - dst.1) + dst.1

/-- A column with every cell present. -/
def allSomeB {α : Type} (c : Col α) : Bool := c.all Option.isSome

/-- A column with at least one cell present. -/
def hasSomeB {α : Type} (c : Col α) : Bool := c.any Option.isSome

/-- A column with every cell missing. -/
def allNoneB {α : Type} (c : Col α) : Bool := c.all Option.isNone

/-! Lemmas about the fill passes. -/

/-- Forward fill preserves the number of rows. -/
theorem ffillAux_length {α : Type} (acc : Option α) (c : Col α) :
    (ffillAux acc c).length = c.length := by
  induction c generalizing acc with
  | nil => rfl
  | cons x rest ih => cases x <;> simp [ffillAux, ih]

/-- Once the accumulator holds a value, forward fill leaves no missing cell. -/
theorem ffillAux_allSome {α : Type} (v : α) (c : Col α) :
    allSomeB (ffillAux (some v) c) = true := by
  induction c generalizing v with
  | nil => rfl
  | cons x rest ih =>
    cases x with
    | none => simpa [ffillAux, allSomeB] using ih v
    | some w => simpa [ffillAux, allSomeB] using ih w

/-- Forward fill of an entirely missing column changes nothing. -/
theorem ffillAux_of_allNone {α : Type} (c : Col α) (h : allNoneB c = true) :
    ffillAux none c = c := by
  induction c with
  | nil => rfl
  | cons x rest ih =>
    cases x with
    | none =>
      simp only [allNoneB, List.all_cons, Bool.and_eq_true] at h
      simp [ffillAux, ih h.2]
    | some w => simp [allNoneB] at h

/-- Forward fill of a column with no missing cell changes nothing. -/
theorem ffillAux_of_allSome {α : Type} (acc : Option α) (c : Col α)
    (h : allSomeB c = true) : ffillAux acc c = c := by
  induction c generalizing acc with
  | nil => rfl
  | cons x rest ih =>
    cases x with
    | none => simp [allSomeB] at h
    | some w =>
      simp only [allSomeB, List.all_cons, Bool.and_eq_true] at h
      simp [ffillAux, ih _ h.2]

/-- When the column has at least one present cell, the forward-filled column
ends in a present cell (stated on the reversed list). -/
theorem ffillAux_rev_cons {α : Type} (acc : Option α) (c : Col α)
    (h : hasSomeB c = true) :
    ∃ v t, (ffillAux acc c).reverse = some v :: t := by
  induction c generalizing acc with
  | nil => simp [hasSomeB] at h
  | cons x rest ih =>
    by_cases hr : hasSomeB rest = true
    · cases x with
      | some v =>
        obtain ⟨w, t, ht⟩ := ih (some v) hr
        exact ⟨w, t ++ [some v], by simp [ffillAux, ht]⟩
      | none =>
        obtain ⟨w, t, ht⟩ := ih acc hr
        exact ⟨w, t ++ [acc], by simp [ffillAux, ht]⟩
    · cases x with
      | none =>
        exfalso
        simp only [hasSomeB, List.any_cons, Option.isSome_none,
          Bool.false_or] at h
        exact hr h
      | some v =>
        have hall := ffillAux_allSome v rest
        rcases hL : (ffillAux (some v) rest).reverse with _ | ⟨y, t⟩
        · exact ⟨v, [], by simp [ffillAux, hL]⟩
        · have hy : y.isSome = true := by
            have hmem : y ∈ (ffillAux (some v) rest).reverse := by
              rw [hL]; exact List.mem_cons_self _ _
            have hmem' : y ∈ ffillAux (some v) rest := List.mem_reverse.mp hmem
            exact List.all_eq_true.mp hall y hmem'
          obtain ⟨w, hw⟩ := Option.isSome_iff_exists.mp hy
          exact ⟨w, t ++ [some v], by simp [ffillAux, hL, hw]⟩

/-- The fill the source applies, `ffill` then `bfill`, leaves no missing
cell as soon as the column has at least one present cell. -/
theorem fillCol_allSome {α : Type} (c : Col α) (h : hasSomeB c = true) :
    allSomeB (fillCol c) = true := by
  obtain ⟨v, t, ht⟩ := ffillAux_rev_cons none c h
  show allSomeB (ffillAux none (ffillAux none c).reverse).reverse = true
  rw [ht]
  apply List.all_eq_true.mpr
  intro x hx
  have hx' : x ∈ ffillAux none (some v :: t) := List.mem_reverse.mp hx
  have hx'' : x ∈ some v :: ffillAux (some v) t := by simpa [ffillAux] using hx'
  rcases List.mem_cons.mp hx'' with h1 | h2
  · subst h1; rfl
  · exact List.all_eq_true.mp (ffillAux_allSome v t) x h2

/-- An entirely missing column passes through the source's fill unchanged. -/
theorem fillCol_of_allNone {α : Type} (c : Col α) (h : allNoneB c = true) :
    fillCol c = c := by
  have hrev : allNoneB c.reverse = true := by
    apply List.all_eq_true.mpr
    intro x hx
    exact List.all_eq_true.mp h x (List.mem_reverse.mp hx)
  show (ffillAux none (ffillAux none c).reverse).reverse = c
  rw [ffillAux_of_allNone c h, ffillAux_of_allNone c.reverse hrev,
    List.reverse_reverse]

/-- A column with no missing cell passes through the source's fill
unchanged. -/
theorem fillCol_of_allSome {α : Type} (c : Col α) (h : allSomeB c = true) :
    fillCol c = c := by
  have hrev : allSomeB c.reverse = true := by
    apply List.all_eq_true.mpr
    intro x hx
    exact List.all_eq_true.mp h x (List.mem_reverse.mp hx)
  show (ffillAux none (ffillAux none c).reverse).reverse = c
  rw [ffillAux_of_allSome none c h, ffillAux_of_allSome none c.reverse hrev,
    List.reverse_reverse]

/-- The source's fill preserves the number of rows. -/
theorem fillCol_length {α : Type} (c : Col α) : (fillCol c).length = c.length := by
  simp [fillCol, bfillCol, ffillCol, ffillAux_length]

/-- A column with no present cell is entirely missing. -/
theorem allNoneB_of_not_hasSomeB {α : Type} (c : Col α)
    (h : hasSomeB c = false) : allNoneB c = true := by
  apply List.all_eq_true.mpr
  intro x hx
  have hns : ¬x.isSome = true := by
    intro hs
    have : hasSomeB c = true := List.any_eq_true.mpr ⟨x, hx, hs⟩
    simp [this] at h
  cases x with
  | none => rfl
  | some v => simp at hns

/-- The source's fill is idempotent. -/
theorem fillCol_idem {α : Type} (c : Col α) : fillCol (fillCol c) = fillCol c := by
  by_cases h : hasSomeB c = true
  · exact fillCol_of_allSome _ (fillCol_allSome c h)
  · have hn := allNoneB_of_not_hasSomeB c (Bool.not_eq_true _ ▸ Bool.of_not_eq_true h)
    rw [fillCol_of_allNone c hn, fillCol_of_allNone c hn]

/-! Lemmas about column selection. -/

/-- A name that occurs zero times is filtered away entirely. -/
theorem filter_count_nil {α : Type} (l : List (String × Col α)) (keep : String)
    (h : (l.map Prod.fst).count keep = 0) :
    l.filter (fun c => c.1 == keep) = [] := by
  induction l with
  | nil => rfl
  | cons p rest ih =>
    rw [List.map_cons, List.count_cons] at h
    by_cases hp : (p.1 == keep) = true
    · simp [hp] at h
    · have h0 : (rest.map Prod.fst).count keep = 0 := by
        simpa [hp] using h
      simp [List.filter_cons, hp, ih h0]

/-- A name that occurs exactly once is filtered to the one pair carrying it. -/
theorem filter_count_one {α : Type} (l : List (String × Col α)) (keep : String)
    (h : (l.map Prod.fst).count keep = 1) :
    ∃ c, l.filter (fun x => x.1 == keep) = [(keep, c)] := by
  induction l with
  | nil => simp at h
  | cons p rest ih =>
    rw [List.map_cons, List.count_cons] at h
    by_cases hp : (p.1 == keep) = true
    · have h0 : (rest.map Prod.fst).count keep = 0 := by
        simpa [hp] using h
      refine ⟨p.2, ?_⟩
      have hpk : p.1 = keep := eq_of_beq hp
      rw [List.filter_cons, if_pos (by simpa using hp), filter_count_nil rest keep h0]
      cases p with
      | mk a b => simp_all
    · have h1 : (rest.map Prod.fst).count keep = 1 := by
        simpa [hp] using h
      obtain ⟨c, hc⟩ := ih h1
      exact ⟨c, by simp [List.filter_cons, hp, hc]⟩

/-! Claim theorems. -/

/-- C3: for every tabular input containing the keep column (once, as the
adapters' fixed schemas guarantee), the table `drop_all_except` RETURNS has
exactly the one kept column, the same index (row count and row order) as
the input, the same number of rows in that column, zero missing entries in
it unless every original entry was missing (in which case it is returned
unchanged, entirely missing), and a zero-row input yields an empty
single-column table. -/
theorem c3_reducer_single_column_filled {α : Type} (df : DataFrame α)
    (keep : String) (h : df.names.count keep = 1) :
    ∃ c, df.cols.filter (fun x => x.1 == keep) = [(keep, c)] ∧
      (drop_all_except df keep).2 = ⟨df.index, [(keep, fillCol c)]⟩ ∧
      (fillCol c).length = c.length ∧
      (hasSomeB c = true → allSomeB (fillCol c) = true) ∧
      (allNoneB c = true → fillCol c = c) ∧
      (c = [] → fillCol c = []) := by
  obtain ⟨c, hc⟩ := filter_count_one df.cols keep h
  refine ⟨c, hc, ?_, fillCol_length c, fillCol_allSome c, fillCol_of_allNone c, ?_⟩
  · simp [drop_all_except, fillDF, hc]
  · rintro rfl; rfl

/-- Witness for C3 on a concrete two-column frame with one interior gap. -/
theorem c3_witness :
    (DataFrame.names (α := ℚ)
        ⟨["a", "b"], [("Price", [some 1, none]), ("Open", [none, some 2])]⟩
      |>.count "Price") = 1 ∧
    (∃ c, ([(("Price" : String), ([some (1 : ℚ), none] : Col ℚ)),
            ("Open", [none, some 2])].filter (fun x => x.1 == "Price")) = [("Price", c)] ∧
      (drop_all_except (⟨["a", "b"], [("Price", [some 1, none]), ("Open", [none, some 2])]⟩ :
          DataFrame ℚ) "Price").2 = ⟨["a", "b"], [("Price", fillCol c)]⟩ ∧
      (fillCol c).length = c.length ∧
      (hasSomeB c = true → allSomeB (fillCol c) = true) ∧
      (allNoneB c = true → fillCol c = c) ∧
      (c = [] → fillCol c = [])) :=
  ⟨by decide,
   c3_reducer_single_column_filled
     ⟨["a", "b"], [("Price", [some 1, none]), ("Open", [none, some 2])]⟩
     "Price" (by decide)⟩

/-- C9: the Column Reducer is idempotent — reducing the table returned by
`drop_all_except` again returns that same table. -/
theorem c9_reducer_idempotent {α : Type} (t : DataFrame α) (keep : String)
    (h : keep ∈ t.names) :
    (drop_all_except (drop_all_except t keep).2 keep).2 =
      (drop_all_except t keep).2 := by
  show (fillDF ⟨_, (fillDF ⟨t.index, t.cols.filter (fun c => c.1 == keep)⟩).cols.filter
      (fun c => c.1 == keep)⟩ : DataFrame α) = _
  have hself : ((t.cols.filter (fun c => c.1 == keep)).map
        (fun c => (c.1, fillCol c.2))).filter (fun c => c.1 == keep) =
      (t.cols.filter (fun c => c.1 == keep)).map (fun c => (c.1, fillCol c.2)) := by
    apply List.filter_eq_self.mpr
    intro x hx
    obtain ⟨y, hy, rfl⟩ := List.mem_map.mp hx
    show (y.1 == keep) = true
    exact (List.mem_filter.mp hy).2
  show (fillDF ⟨t.index, ((t.cols.filter (fun c => c.1 == keep)).map
      (fun c => (c.1, fillCol c.2))).filter (fun c => c.1 == keep)⟩ : DataFrame α) = _
  rw [hself]
  show DataFrame.mk _ _ = DataFrame.mk _ _
  congr 1
  rw [List.map_map]
  apply List.map_congr_left
  intro x _
  simp [Function.comp, fillCol_idem]

/-- Witness for C9 on a concrete frame. -/
theorem c9_witness :
    ("Price" ∈ DataFrame.names (α := ℚ) ⟨["a"], [("Price", [none]), ("Open", [some 2])]⟩) ∧
    (drop_all_except (drop_all_except
        (⟨["a"], [("Price", [none]), ("Open", [some 2])]⟩ : DataFrame ℚ) "Price").2
      "Price").2 =
      (drop_all_except (⟨["a"], [("Price", [none]), ("Open", [some 2])]⟩ :
          DataFrame ℚ) "Price").2 :=
  ⟨by decide,
   c9_reducer_idempotent ⟨["a"], [("Price", [none]), ("Open", [some 2])]⟩ "Price"
     (by decide)⟩

/-- C4: `drop_all_except` mutates the caller's table in place only by
removing the other columns — after the call the caller's object holds the
kept column with its ORIGINAL cells, every missing entry included — while
the backward/forward fill reaches only the table the function returns. -/
theorem c4_drop_in_place_fill_on_return_only {α : Type} (df : DataFrame α)
    (keep : String) (h : df.names.count keep = 1) :
    ∃ c, df.cols.filter (fun x => x.1 == keep) = [(keep, c)] ∧
      (drop_all_except df keep).1 = ⟨df.index, [(keep, c)]⟩ ∧
      (drop_all_except df keep).2 = ⟨df.index, [(keep, fillCol c)]⟩ := by
  obtain ⟨c, hc⟩ := filter_count_one df.cols keep h
  exact ⟨c, hc, by simp [drop_all_except, hc],
    by simp [drop_all_except, fillDF, hc]⟩

/-- Witness for C4: a frame whose price column has a missing cell; the
caller's object keeps it, the returned frame fills it. -/
theorem c4_witness :
    (DataFrame.names (α := ℚ)
        ⟨["a", "b"], [("Open", [some 2, some 3]), ("Price", [some 1, none])]⟩
      |>.count "Price") = 1 ∧
    (∃ c, ([(("Open" : String), ([some (2 : ℚ), some 3] : Col ℚ)),
            ("Price", [some 1, none])].filter (fun x => x.1 == "Price")) = [("Price", c)] ∧
      (drop_all_except (⟨["a", "b"], [("Open", [some 2, some 3]), ("Price", [some 1, none])]⟩ :
          DataFrame ℚ) "Price").1 = ⟨["a", "b"], [("Price", c)]⟩ ∧
      (drop_all_except (⟨["a", "b"], [("Open", [some 2, some 3]), ("Price", [some 1, none])]⟩ :
          DataFrame ℚ) "Price").2 = ⟨["a", "b"], [("Price", fillCol c)]⟩) :=
  ⟨by decide,
   c4_drop_in_place_fill_on_return_only
     ⟨["a", "b"], [("Open", [some 2, some 3]), ("Price", [some 1, none])]⟩
     "Price" (by decide)⟩

/-- C5: when the opaque vendor source yields zero rows, `get_yfinance_data`
returns a zero-row frame (it is total: it neither raises nor returns an
absent value), for either setting of the reduce flag. -/
theorem c5_vendor_zero_rows_empty_series (rates : DataFrame ℚ) (d : Bool)
    (h : rates.index = [] ∧ ∀ p ∈ rates.cols, p.2 = []) :
    (get_yfinance_data rates d).index = [] ∧
      ∀ p ∈ (get_yfinance_data rates d).cols, p.2 = [] := by
  obtain ⟨hi, hc⟩ := h
  cases d with
  | false =>
    refine ⟨hi, ?_⟩
    intro p hp
    obtain ⟨q, hq, rfl⟩ := List.mem_map.mp hp
    by_cases hqc : (q.1 == "Close") = true <;> simp [hqc, hc q hq]
  | true =>
    refine ⟨hi, ?_⟩
    intro p hp
    obtain ⟨q, hq, rfl⟩ := List.mem_map.mp hp
    have hq' : q ∈ rates.cols := List.mem_of_mem_filter hq
    by_cases hqc : (q.1 == "Close") = true <;> simp [hqc, hc q hq']

/-- Witness for C5 on a zero-row vendor frame. -/
theorem c5_witness :
    ((DataFrame.index (α := ℚ) ⟨[], [("Close", []), ("Open", [])]⟩ = []) ∧
      ∀ p ∈ DataFrame.cols (α := ℚ) ⟨[], [("Close", []), ("Open", [])]⟩, p.2 = []) ∧
    ((get_yfinance_data ⟨[], [("Close", []), ("Open", [])]⟩ true).index = [] ∧
      ∀ p ∈ (get_yfinance_data ⟨[], [("Close", []), ("Open", [])]⟩ true).cols, p.2 = []) :=
  ⟨by decide,
   c5_vendor_zero_rows_empty_series ⟨[], [("Close", []), ("Open", [])]⟩ true
     (by decide)⟩

/-- C1 (code bug): in `get_yfinance_data` and `get_mt5_data` the call
`drop_all_except(...)` has its return value discarded, so the filled frame
is lost and only the in-place column drop takes effect: a raw history whose
price column is `[1, NaN]` — which has a non-missing price — comes back
from both adapters with the missing entry still in place, violating the
no-missing-prices invariant.  (The file adapter assigns the return value,
so it is not affected.) -/
theorem c1_adapters_lose_fill_eval :
    hasSomeB ([some (1 : ℚ), none] : Col ℚ) = true ∧
    get_yfinance_data
        ⟨["2024-01-01", "2024-01-02"],
         [("Close", [some (1 : ℚ), none]), ("Open", [some 1, some 2])]⟩ true =
      ⟨["2024-01-01", "2024-01-02"], [("Price", [some 1, none])]⟩ ∧
    get_mt5_data true "EURUSD" "H1" none none (some 0) (some 10) none
        (some ⟨[], [("time", [some 100, some 200]), ("close", [some (1 : ℚ), none])]⟩)
        true =
      some ⟨["100", "200"], [("Price", [some 1, none])]⟩ :=
  ⟨rfl, rfl, rfl⟩

/-- C2 (code bug): the source computes `df.ffill().bfill()` — forward fill
FIRST — although its own comment says "Backward Fill then Fill forward
remaining NaNs".  On the column `[1, NaN, 3]` the interior gap, which has a
chronologically later non-missing value 3, is filled with the earlier value
1, not with 3 as the claim states. -/
theorem c2_fill_is_forward_first_eval :
    fillCol ([some (1 : ℚ), none, some 3] : Col ℚ) = [some 1, some 1, some 3] ∧
    (drop_all_except
        (⟨["a", "b", "c"], [("Price", [some (1 : ℚ), none, some 3])]⟩ : DataFrame ℚ)
        "Price").2 =
      ⟨["a", "b", "c"], [("Price", [some 1, some 1, some 3])]⟩ :=
  ⟨rfl, rfl⟩

/-- C7: every failed guard of the platform adapter degrades to the absent
value: `authorized = false`, a timeframe outside the fixed enumeration, or
neither a complete date pair nor a complete position pair. -/
theorem c7_platform_guards_degrade_to_none :
    (∀ (symbol timeframe : String) sd ed sp ep rr rp (d : Bool),
        get_mt5_data false symbol timeframe sd ed sp ep rr rp d = none) ∧
    (∀ (authorized : Bool) (symbol timeframe : String) sd ed sp ep rr rp (d : Bool),
        timeframe ∉ mt5Timeframes →
        get_mt5_data authorized symbol timeframe sd ed sp ep rr rp d = none) ∧
    (∀ (authorized : Bool) (symbol timeframe : String) (sd ed : Option String)
        (sp ep : Option Int) rr rp (d : Bool),
        ¬(sd.isSome = true ∧ ed.isSome = true) →
        ¬(sp.isSome = true ∧ ep.isSome = true) →
        get_mt5_data authorized symbol timeframe sd ed sp ep rr rp d = none) := by
  refine ⟨?_, ?_, ?_⟩
  · intro _ _ _ _ _ _ _ _ _
    rfl
  · intro auth symbol tf sd ed sp ep rr rp d hmemf
    have hc : mt5Timeframes.contains tf = false := by
      simpa using hmemf
    cases auth with
    | false => rfl
    | true =>
      unfold get_mt5_data
      rw [hc]
      rfl
  · intro auth symbol tf sd ed sp ep rr rp d h1 h2
    have hb1 : (sd.isSome && ed.isSome) = false := by
      cases hs : sd.isSome <;> cases he : ed.isSome <;> simp_all
    have hb2 : (sp.isSome && ep.isSome) = false := by
      cases hs : sp.isSome <;> cases he : ep.isSome <;> simp_all
    cases auth with
    | false => rfl
    | true =>
      unfold get_mt5_data
      rw [hb1, hb2]
      by_cases hc : mt5Timeframes.contains tf = true
      · simp [hc]
      · have hc' : mt5Timeframes.contains tf = false := by
          simpa using hc
        simp [hc']

/-- Witness for C7: each guard at a concrete input. -/
theorem c7_witness :
    get_mt5_data false "EURUSD" "H1" none none none none none none true = none ∧
    (("ZZ" : String) ∉ mt5Timeframes ∧
      get_mt5_data true "EURUSD" "ZZ" none none (some 0) (some 10) none none true = none) ∧
    (¬((none : Option String).isSome = true ∧ (some "2024-01-01").isSome = true) ∧
      ¬((none : Option Int).isSome = true ∧ (none : Option Int).isSome = true) ∧
      get_mt5_data true "EURUSD" "H1" none (some "2024-01-01") none none none none true = none) :=
  ⟨c7_platform_guards_degrade_to_none.1 "EURUSD" "H1" none none none none none none true,
   ⟨by decide,
    c7_platform_guards_degrade_to_none.2.1 true "EURUSD" "ZZ" none none (some 0)
      (some 10) none none true (by decide)⟩,
   ⟨by decide, by decide,
    c7_platform_guards_degrade_to_none.2.2 true "EURUSD" "H1" none
      (some "2024-01-01") none none none none true (by decide) (by decide)⟩⟩

/-- C8: for a nondegenerate source range the Range Mapper clamps values at
or below the source low to the destination low, values at or above the
source high to the destination high, and otherwise interpolates linearly;
the two concrete examples of the spec evaluate as stated. -/
theorem c8_scale_clamp_and_interpolate (v lo hi dlo dhi : ℚ) (h : lo < hi) :
    (v ≤ lo → scale v (lo, hi) (dlo, dhi) = dlo) ∧
    (hi ≤ v → scale v (lo, hi) (dlo, dhi) = dhi) ∧
    (lo ≤ v → v ≤ hi →
      scale v (lo, hi) (dlo, dhi) = ((v - lo) / (hi - lo)) * (dhi - dlo) + dlo) ∧
    scale 0 ((0 : ℚ), 99) (-1, 1) = -1 ∧
    scale 50 ((0 : ℚ), 100) (0, 1) = 1 / 2 := by
  refine ⟨?_, ?_, ?_, by norm_num [scale], by norm_num [scale]⟩
  · intro hv
    rcases lt_or_eq_of_le hv with hlt | heq
    · simp [scale, hlt]
    · subst heq
      have h2 : ¬ hi < v := not_lt.mpr (le_of_lt h)
      simp [scale, lt_irrefl, h2]
  · intro hv
    rcases lt_or_eq_of_le hv with hlt | heq
    · have h1 : ¬ v < lo := not_lt.mpr (le_of_lt (lt_trans h hlt))
      simp [scale, h1, hlt]
    · subst heq
      have h1 : ¬ hi < lo := not_lt.mpr (le_of_lt h)
      have hne : hi - lo ≠ 0 := sub_ne_zero.mpr (ne_of_gt h)
      simp [scale, h1, lt_irrefl, div_self hne]
  · intro h1 h2
    have hn1 : ¬ v < lo := not_lt.mpr h1
    have hn2 : ¬ hi < v := not_lt.mpr h2
    simp [scale, hn1, hn2]

/-- Witness for C8 at a concrete nondegenerate range. -/
theorem c8_witness :
    (0 : ℚ) < 1 ∧
    (((1 : ℚ) / 2 ≤ (0 : ℚ) → scale (1 / 2) ((0 : ℚ), 1) (3, 7) = 3) ∧
      ((1 : ℚ) ≤ 1 / 2 → scale (1 / 2) ((0 : ℚ), 1) (3, 7) = 7) ∧
      ((0 : ℚ) ≤ 1 / 2 → (1 : ℚ) / 2 ≤ 1 →
        scale (1 / 2) ((0 : ℚ), 1) (3, 7) =
          (((1 : ℚ) / 2 - 0) / (1 - 0)) * (7 - 3) + 3) ∧
      scale 0 ((0 : ℚ), 99) (-1, 1) = -1 ∧
      scale 50 ((0 : ℚ), 100) (0, 1) = 1 / 2) :=
  ⟨zero_lt_one, c8_scale_clamp_and_interpolate (1 / 2) 0 1 3 7 zero_lt_one⟩

/-- Rounding half-to-even is the identity on integers. -/
theorem roundHalfEven_intCast (n : ℤ) : roundHalfEven ((n : ℤ) : ℚ) = n := by
  unfold roundHalfEven
  rw [Int.floor_intCast]
  norm_num

/-- Evaluation rule for `formatFixed` when the scaled magnitude is already
an exact natural number. -/
theorem formatFixed_eval (q : ℚ) (d m : ℕ) (h0 : 0 ≤ q)
    (hm : q * 10 ^ d = (m : ℚ)) :
    formatFixed q d = toString (m / 10 ^ d) ++
      (if d = 0 then "" else "." ++ padZeros d (toString (m % 10 ^ d))) := by
  unfold formatFixed
  have hs : ¬ q < 0 := not_lt.mpr h0
  have habs : |q| = q := abs_of_nonneg h0
  rw [if_neg hs, habs, hm]
  have hr : roundHalfEven ((m : ℕ) : ℚ) = (m : ℤ) := by
    have h1 := roundHalfEven_intCast (m : ℤ)
    rwa [Int.cast_natCast] at h1
  rw [hr, Int.toNat_natCast]
  simp

/-- C10: the Display Formatter is total and renders the not-a-number
sentinel (modelled as `none`) as "-"; on 0.1234 `to_percent` yields
"12.34%" and `to_percent_num` yields "12.34". -/
theorem c10_formatting_never_fails :
    to_percent none = "-" ∧ to_percent_num none = "-" ∧
    (∀ d, to_float none d = "-") ∧
    to_percent (some (1234 / 10000 : ℚ)) = "12.34%" ∧
    to_percent_num (some (1234 / 10000 : ℚ)) = "12.34" := by
  refine ⟨rfl, rfl, fun _ => rfl, ?_, ?_⟩
  · show formatFixed ((1234 / 10000 : ℚ) * 100) 2 ++ "%" = "12.34%"
    rw [formatFixed_eval ((1234 / 10000 : ℚ) * 100) 2 1234 (by norm_num) (by norm_num)]
    rfl
  · show formatFixed ((1234 / 10000 : ℚ) * 100) 2 = "12.34"
    rw [formatFixed_eval ((1234 / 10000 : ℚ) * 100) 2 1234 (by norm_num) (by norm_num)]
    rfl

/-- C6: a delimited file whose (uniform) column count differs from the
selected schema width — 8 for daily bars, 9 for intraday — makes the file
adapter raise a format error; a well-formed file of the expected width
yields a single-column Price series indexed by the parsed timestamps in
file order (the first line is consumed as the header). -/
theorem c6_file_adapter_schema_width :
    (∀ (header : List String) (body : List (List String)) (dailyBars drop : Bool)
        (w : Nat),
        (∀ r ∈ header :: body, r.length = w) →
        w ≠ (if dailyBars then 8 else 9) →
        ∃ e, get_csv_data (header :: body) dailyBars drop = .error e) ∧
    (∀ (header : List String) (body : List (List String)),
        (∀ r ∈ header :: body, r.length = 8) →
        get_csv_data (header :: body) true true =
          .ok ⟨body.map (fun r => r.getD 0 ""),
               [("Price", fillCol (body.map (fun r => parseCell (r.getD 4 ""))))]⟩) ∧
    (∀ (header : List String) (body : List (List String)),
        (∀ r ∈ header :: body, r.length = 9) →
        get_csv_data (header :: body) false true =
          .ok ⟨body.map (fun r => r.getD 0 "" ++ " " ++ r.getD 1 ""),
               [("Price", fillCol (body.map (fun r => parseCell (r.getD 5 ""))))]⟩) := by
  refine ⟨?_, ?_, ?_⟩
  · intro header body dailyBars drop w hall hw
    have h2 : header.length = w := hall header (List.mem_cons_self _ _)
    have hragged : (body.any fun r => decide ¬(r.length = header.length)) = false := by
      apply List.any_eq_false.mpr
      intro r hr
      simp [hall r (List.mem_cons_of_mem _ hr), h2]
    refine ⟨.columnCount, ?_⟩
    cases dailyBars with
    | true =>
      have hlen : header.length ≠ schemaDaily.length := by
        rw [h2]
        simpa [schemaDaily] using hw
      simp [get_csv_data, hragged, hlen]
      intro r hr
      rw [hall r (List.mem_cons_of_mem _ hr), h2]
    | false =>
      have hlen : header.length ≠ schemaIntraday.length := by
        rw [h2]
        simpa [schemaIntraday] using hw
      simp [get_csv_data, hragged, hlen]
      intro r hr
      rw [hall r (List.mem_cons_of_mem _ hr), h2]
  · intro header body hall
    have h2 : header.length = 8 := hall header (List.mem_cons_self _ _)
    have hragged : (body.any fun r => decide ¬(r.length = header.length)) = false := by
      apply List.any_eq_false.mpr
      intro r hr
      simp [hall r (List.mem_cons_of_mem _ hr), h2]
    have hlen : ¬ header.length ≠ schemaDaily.length := by
      simp [h2, schemaDaily]
    simp only [get_csv_data, hragged, Bool.false_eq_true, if_false, if_true,
      hlen, ite_false, ite_true]
    rfl
  · intro header body hall
    have h2 : header.length = 9 := hall header (List.mem_cons_self _ _)
    have hragged : (body.any fun r => decide ¬(r.length = header.length)) = false := by
      apply List.any_eq_false.mpr
      intro r hr
      simp [hall r (List.mem_cons_of_mem _ hr), h2]
    have hlen : ¬ header.length ≠ schemaIntraday.length := by
      simp [h2, schemaIntraday]
    simp only [get_csv_data, hragged, Bool.false_eq_true, if_false, if_true,
      hlen, ite_false, ite_true]
    rfl

/-- Witness for C6: a 7-column daily file raises, a well-formed 8-column
daily file yields the single Price series in file order. -/
theorem c6_witness :
    ((∀ r ∈ [["a", "b", "c", "d", "e", "f", "g"],
             ["1", "2", "3", "4", "5", "6", "7"]], r.length = 7) ∧
      7 ≠ (if true then 8 else 9) ∧
      ∃ e, get_csv_data
          [["a", "b", "c", "d", "e", "f", "g"],
           ["1", "2", "3", "4", "5", "6", "7"]] true true = .error e) ∧
    ((∀ r ∈ [["h1", "h2", "h3", "h4", "h5", "h6", "h7", "h8"],
             ["2024-01-01", "1", "2", "0.5", "", "9", "9", "0"],
             ["2024-01-02", "1", "2", "0.5", "1.5", "9", "9", "0"]], r.length = 8) ∧
      get_csv_data
          [["h1", "h2", "h3", "h4", "h5", "h6", "h7", "h8"],
           ["2024-01-01", "1", "2", "0.5", "", "9", "9", "0"],
           ["2024-01-02", "1", "2", "0.5", "1.5", "9", "9", "0"]] true true =
        .ok ⟨[["2024-01-01", "1", "2", "0.5", "", "9", "9", "0"],
              ["2024-01-02", "1", "2", "0.5", "1.5", "9", "9", "0"]].map
                (fun r => r.getD 0 ""),
             [("Price", fillCol ([["2024-01-01", "1", "2", "0.5", "", "9", "9", "0"],
                ["2024-01-02", "1", "2", "0.5", "1.5", "9", "9", "0"]].map
                  (fun r => parseCell (r.getD 4 ""))))]⟩) :=
  ⟨⟨by decide, by decide,
    c6_file_adapter_schema_width.1 ["a", "b", "c", "d", "e", "f", "g"]
      [["1", "2", "3", "4", "5", "6", "7"]] true true 7 (by decide) (by decide)⟩,
   ⟨by decide,
    c6_file_adapter_schema_width.2.1 ["h1", "h2", "h3", "h4", "h5", "h6", "h7", "h8"]
      [["2024-01-01", "1", "2", "0.5", "", "9", "9", "0"],
       ["2024-01-02", "1", "2", "0.5", "1.5", "9", "9", "0"]] (by decide)⟩⟩

end FinData
